import Mathlib

/-!
Verification of the instruction-execution core of the `rustboy` emulator
(`src/cpu.rs`) against its natural-language specification.

Bytes and 16-bit words are embedded as `Nat` with explicit `% 256` and
`% 65536` where the Rust code wraps.  The CPU state is a structure; the
memory bus is embedded as a read function `Nat → Nat` (the in-scope code
only ever reads from it).  Rust functions that mutate `self` become Lean
functions returning the updated state.
-/

/-- Rust `u8::overflowing_add` on byte values embedded as `Nat`:
the wrapped sum and the overflow flag. -/
def overflowing_add (x y : Nat) : Nat × Bool :=
  ((x + y) % 256, decide (255 < x + y))

/-- Rust `u16::wrapping_add` embedded as `Nat` arithmetic modulo `2^16`. -/
def wrapping_add16 (x y : Nat) : Nat := (x + y) % 65536

/-- The four condition flags of the `f` register (field names follow
`register.rs` as used from `cpu.rs`; the source spells `substraction`). -/
structure FlagsRegister where
  zero : Bool
  substraction : Bool
  half_carry : Bool
  carry : Bool
deriving DecidableEq

/-- Modelled from the spec: `f` packs the four booleans into bits
7, 6, 5, 4 of a byte; bits 3–0 are always zero (the `register` module is
not under `src/`). -/
def FlagsRegister.toByte (f : FlagsRegister) : Nat :=
  (if f.zero then 0x80 else 0) + (if f.substraction then 0x40 else 0) +
    (if f.half_carry then 0x20 else 0) + (if f.carry then 0x10 else 0)

/-- Modelled from the spec: unpacking a byte reads bits 7, 6, 5, 4 into
the four flag booleans, masking off the unused low nibble. -/
def FlagsRegister.ofByte (b : Nat) : FlagsRegister :=
  { zero := b.testBit 7
    substraction := b.testBit 6
    half_carry := b.testBit 5
    carry := b.testBit 4 }

/-- The register file: eight 8-bit registers, with `f` kept in unpacked
form (the four booleans), as in `register.rs` used from `cpu.rs`. -/
structure Registers where
  a : Nat
  b : Nat
  c : Nat
  d : Nat
  e : Nat
  h : Nat
  l : Nat
  f : FlagsRegister

/-- Modelled from the spec: register pair `hl = (h<<8)|l` (the
`register` module is not under `src/`). -/
def Registers.read_hl (r : Registers) : Nat := (r.h <<< 8) ||| r.l

/-- Modelled from the spec: writing the `af` pair splits the 16-bit
value into its two 8-bit halves; the low byte is unpacked into the four
flag booleans (masking off the unused low nibble). -/
def Registers.write_af (r : Registers) (v : Nat) : Registers :=
  { r with a := v / 256 % 256, f := FlagsRegister.ofByte (v % 256) }

/-- Modelled from the spec: reading the `af` pair yields
`(a<<8) | packed f`; since the packed flag byte is below 256 this is
`a * 256 + packed f`. -/
def Registers.read_af (r : Registers) : Nat := r.a * 256 + r.f.toByte

/-- The operand-source descriptor of an arithmetic instruction.
Modelled from the spec: one variant per named 8-bit register, `HL`
(memory indirect) and `D8` (immediate byte): the `instruction` module is
not under `src/`. -/
inductive ArithmeticTarget
  | A | B | C | D | E | H | L | HL | D8
deriving DecidableEq

/-- Decoded instructions. Modelled from the spec: add,
add-with-carry, subtract and subtract-with-carry, each with an
`ArithmeticTarget`; the `instruction` module is not under `src/`
(`Cpu::execute` matches exactly these four operation families). -/
inductive Instruction
  | ADD (t : ArithmeticTarget)
  | ADDC (t : ArithmeticTarget)
  | SUB (t : ArithmeticTarget)
  | SBC (t : ArithmeticTarget)
deriving DecidableEq

/-- The CPU state from `cpu.rs`: register file, `pc`, `sp`, and the
memory bus, embedded as its byte-read function (the in-scope code only
reads the bus). -/
structure Cpu where
  registers : Registers
  pc : Nat
  sp : Nat
  bus : Nat → Nat

/-- `Cpu::add` from `cpu.rs`: wrapping 8-bit add of `value` into the
accumulator, setting the four flags; returns the updated state (flags
written) and the new accumulator value (written back by the caller). -/
def Cpu.add (self : Cpu) (value : Nat) : Cpu × Nat :=
  let p := overflowing_add self.registers.a value
  let new_value := p.1
  let overflow := p.2
  let f : FlagsRegister :=
    { zero := decide (new_value = 0)
      substraction := false
      carry := overflow
      half_carry := decide (0xF < (self.registers.a &&& 0xF) + (value &&& 0xF)) }
  ({ self with registers := { self.registers with f := f } }, new_value)

/-- `Cpu::addc` from `cpu.rs`: first fold the incoming carry flag into
the operand (recording `first_overflow`), then add the intermediate to
the accumulator (recording `second_overflow`); `carry` is the
disjunction, and `half_carry` is computed against the carry-folded
intermediate value. -/
def Cpu.addc (self : Cpu) (value : Nat) : Cpu × Nat :=
  let p := overflowing_add value (if self.registers.f.carry then 1 else 0)
  let intermediate_value := p.1
  let first_overflow := p.2
  let q := overflowing_add self.registers.a intermediate_value
  let new_value := q.1
  let second_overflow := q.2
  let f : FlagsRegister :=
    { zero := decide (new_value = 0)
      substraction := false
      carry := first_overflow || second_overflow
      half_carry :=
        decide (0xF < (self.registers.a &&& 0xF) + (intermediate_value &&& 0xF)) }
  ({ self with registers := { self.registers with f := f } }, new_value)

/-- The write-back step of `run_instruction_in_register!` /
`arithmetic_instruction!`: the value returned by the operation is stored
into the accumulator register `a`. -/
def writeback (p : Cpu × Nat) : Cpu :=
  { p.1 with registers := { p.1.registers with a := p.2 } }

/-- The `arithmetic_instruction!` macro from `cpu.rs`: fetch the operand
per target, run the operation, write the result into `a`, and return the
next `pc` (`pc+1` wrapping for one-byte forms, `pc+2` for `D8`). -/
def Cpu.arithmetic_instruction (self : Cpu) (instr : Cpu → Nat → Cpu × Nat)
    (target : ArithmeticTarget) : Cpu × Nat :=
  match target with
  | .A => (writeback (instr self self.registers.a), wrapping_add16 self.pc 1)
  | .B => (writeback (instr self self.registers.b), wrapping_add16 self.pc 1)
  | .C => (writeback (instr self self.registers.c), wrapping_add16 self.pc 1)
  | .D => (writeback (instr self self.registers.d), wrapping_add16 self.pc 1)
  | .E => (writeback (instr self self.registers.e), wrapping_add16 self.pc 1)
  | .H => (writeback (instr self self.registers.h), wrapping_add16 self.pc 1)
  | .L => (writeback (instr self self.registers.l), wrapping_add16 self.pc 1)
  | .HL =>
      let address := self.registers.read_hl
      let value := self.bus address
      (writeback (instr self value), wrapping_add16 self.pc 1)
  | .D8 =>
      let address := wrapping_add16 self.pc 1
      let value := self.bus address
      (writeback (instr self value), wrapping_add16 self.pc 2)

/-- `Cpu::execute` from `cpu.rs`: dispatch on the decoded instruction;
`SUB`, `SBC` (and any other non-ADD/ADDC arm) are unimplemented
placeholders returning the current `pc` with the state untouched. -/
def Cpu.execute (self : Cpu) (instruction : Instruction) : Cpu × Nat :=
  match instruction with
  | .ADD target => self.arithmetic_instruction Cpu.add target
  | .ADDC target => self.arithmetic_instruction Cpu.addc target
  | .SUB _ => (self, self.pc)
  | .SBC _ => (self, self.pc)

/-- `Cpu::run` from `cpu.rs`, one fetch–decode–execute–commit cycle.
The decode table lives in the `instruction` module (not under `src/`),
so `run` is parameterized by the decode function
`Instruction::from_byte`.  On decode failure the source panics with
`"Unknown instruction found for 0x{:x}"`, interpolating only the opcode
byte; the panic is embedded as an `Except.error` carrying that byte (the
only variable datum of the diagnostic). -/
def Cpu.run (from_byte : Nat → Option Instruction) (self : Cpu) :
    Except Nat Cpu :=
  let instruction_byte := self.bus self.pc
  match from_byte instruction_byte with
  | some instruction =>
      let r := self.execute instruction
      Except.ok { r.1 with pc := r.2 }
  | none => Except.error instruction_byte

/-- Spec-side description of the operand source per target, written from
the spec's addressing table (named register → register file; `HL` → bus
byte at the `hl` pair; `D8` → bus byte at `pc + 1`). -/
def operandOf (s : Cpu) : ArithmeticTarget → Nat
  | .A => s.registers.a
  | .B => s.registers.b
  | .C => s.registers.c
  | .D => s.registers.d
  | .E => s.registers.e
  | .H => s.registers.h
  | .L => s.registers.l
  | .HL => s.bus s.registers.read_hl
  | .D8 => s.bus ((s.pc + 1) % 65536)

/-- Spec-side description of the next-pc rule per target, written from
the spec's addressing table (`pc + 1` for one-byte forms, `pc + 2` for
the immediate form, modulo `2^16`). -/
def nextPcOf (s : Cpu) : ArithmeticTarget → Nat
  | .D8 => (s.pc + 2) % 65536
  | _ => (s.pc + 1) % 65536

/-- A concrete CPU state used by witnesses: all registers and flags
zeroed, `pc = sp = 0`, a bus holding `0x23` at address 1 and `0` at
every other address. -/
def sampleCpu : Cpu :=
  { registers :=
      { a := 0, b := 0, c := 0, d := 0, e := 0, h := 0, l := 0
        f := { zero := false, substraction := false
               half_carry := false, carry := false } }
    pc := 0
    sp := 0
    bus := fun addr => if addr = 1 then 0x23 else 0 }

/-- A concrete CPU state with the incoming carry flag set, all other
registers zeroed, and a bus returning `0xD3` at every address. -/
def carryCpu : Cpu :=
  { registers :=
      { a := 0, b := 0, c := 0, d := 0, e := 0, h := 0, l := 0
        f := { zero := false, substraction := false
               half_carry := false, carry := true } }
    pc := 0
    sp := 0
    bus := fun _ => 0xD3 }

/-- C1: `add` returns `(a + v) mod 256`, sets `carry` iff the unsigned
8-bit addition overflowed, `zero` iff the result is `0`, `subtraction`
to `false`, and `half_carry` iff `(a &&& 0xF) + (v &&& 0xF) > 0xF`,
where `a` is the accumulator before the operation. -/
theorem add_spec (s : Cpu) (v : Nat) :
    (s.add v).2 = (s.registers.a + v) % 256 ∧
    ((s.add v).1.registers.f.carry = true ↔ 0xFF < s.registers.a + v) ∧
    ((s.add v).1.registers.f.zero = true ↔ (s.add v).2 = 0) ∧
    (s.add v).1.registers.f.substraction = false ∧
    ((s.add v).1.registers.f.half_carry = true ↔
      0xF < (s.registers.a &&& 0xF) + (v &&& 0xF)) := by
  refine ⟨rfl, ?_, ?_, rfl, ?_⟩ <;> simp [Cpu.add, overflowing_add]

/-- C2: `addc` folds the incoming carry into the operand to form
`intermediate = (v + cf) mod 256` (recording `first_overflow`), adds it
to the accumulator (recording `second_overflow`), sets
`carry = first_overflow OR second_overflow`, `zero` iff the result is
`0`, `subtraction = false`, and `half_carry` against the carry-folded
intermediate value, not the raw operand. -/
theorem addc_spec (s : Cpu) (v : Nat) :
    (s.addc v).2 =
      (s.registers.a +
        (v + (if s.registers.f.carry then 1 else 0)) % 256) % 256 ∧
    ((s.addc v).1.registers.f.carry = true ↔
      (0xFF < v + (if s.registers.f.carry then 1 else 0) ∨
       0xFF < s.registers.a +
         (v + (if s.registers.f.carry then 1 else 0)) % 256)) ∧
    ((s.addc v).1.registers.f.zero = true ↔ (s.addc v).2 = 0) ∧
    (s.addc v).1.registers.f.substraction = false ∧
    ((s.addc v).1.registers.f.half_carry = true ↔
      0xF < (s.registers.a &&& 0xF) +
        ((v + (if s.registers.f.carry then 1 else 0)) % 256 &&& 0xF)) := by
  refine ⟨rfl, ?_, ?_, rfl, ?_⟩ <;> simp [Cpu.addc, overflowing_add]

/-- C9: `addc` invoked with the incoming carry flag clear produces
exactly the same result byte and the same four flags as `add` on the
same accumulator and (8-bit) operand. -/
theorem addc_carry_clear_eq_add (s : Cpu) (v : Nat)
    (hc : s.registers.f.carry = false) (hv : v < 256) :
    s.addc v = s.add v := by
  have h255 : ¬ (0xFF < v) := by omega
  simp [Cpu.addc, Cpu.add, overflowing_add, hc, h255, Nat.mod_eq_of_lt hv]

/-- C9 witness: on a concrete state with the carry flag clear, `addc`
and `add` agree on operand `7`. -/
theorem addc_carry_clear_eq_add_witness :
    sampleCpu.addc 7 = sampleCpu.add 7 :=
  addc_carry_clear_eq_add sampleCpu 7 rfl (by decide)

/-- C4: there is an input (here `a = 0`, `v = 0xFF`, incoming carry set)
on which `addc`'s implemented half-carry — computed from the
carry-folded intermediate — differs from the reassociated formula
`(a &&& 0xF) + (v &&& 0xF) + 1 > 0xF`; the two formulas are not
equivalent over all inputs. -/
theorem addc_half_carry_not_reassociable :
    ∃ (s : Cpu) (v : Nat), v < 256 ∧ s.registers.f.carry = true ∧
      (s.addc v).1.registers.f.half_carry ≠
        decide (0xF < (s.registers.a &&& 0xF) + (v &&& 0xF) + 1) :=
  ⟨carryCpu, 0xFF, by decide, rfl, by decide⟩

/-- C10: executing `ADD` with target `A` uses the pre-write-back
accumulator as operand, so the resulting accumulator is `2·a mod 256`
and the flags are those of `add(a, a)`; `ADDC` with target `A` likewise
uses the pre-instruction accumulator as operand. -/
theorem execute_target_A_doubles (s : Cpu) :
    (s.execute (.ADD .A)).1.registers.a = 2 * s.registers.a % 256 ∧
    (s.execute (.ADD .A)).1.registers.f = (s.add s.registers.a).1.registers.f ∧
    (s.execute (.ADDC .A)).1 = writeback (s.addc s.registers.a) := by
  refine ⟨?_, rfl, rfl⟩
  show (s.registers.a + s.registers.a) % 256 = 2 * s.registers.a % 256
  omega

/-- C3: for every target, executing `ADD`/`ADDC` fetches the operand
from the source the spec's addressing table names (named register →
register file; `HL` → bus byte at the `hl` pair; `D8` → bus byte at
`pc + 1 mod 2^16`), writes the operation's result into `a`, and returns
`pc + 1 mod 2^16` (or `pc + 2 mod 2^16` for `D8`); all PC arithmetic
wraps modulo `2^16` with no error condition. -/
theorem execute_addressing (s : Cpu) (t : ArithmeticTarget) :
    s.execute (.ADD t) = (writeback (s.add (operandOf s t)), nextPcOf s t) ∧
    s.execute (.ADDC t) = (writeback (s.addc (operandOf s t)), nextPcOf s t) := by
  cases t <;> exact ⟨rfl, rfl⟩

/-- Frame condition between two CPU states: registers `b`–`l`, `sp`,
the bus contents and the `pc` field all coincide. -/
def framePreserved (s s' : Cpu) : Prop :=
  s'.registers.b = s.registers.b ∧ s'.registers.c = s.registers.c ∧
  s'.registers.d = s.registers.d ∧ s'.registers.e = s.registers.e ∧
  s'.registers.h = s.registers.h ∧ s'.registers.l = s.registers.l ∧
  s'.sp = s.sp ∧ s'.bus = s.bus ∧ s'.pc = s.pc

/-- C7: executing `ADD`/`ADDC` with any target writes only the
accumulator and the flags: registers `b`–`l` and `sp` are unchanged, no
byte of memory changes (the bus is identical, only read), and the `pc`
field itself is untouched — only the returned next pc can change it. -/
theorem execute_arith_frame (s : Cpu) (t : ArithmeticTarget) :
    framePreserved s (s.execute (.ADD t)).1 ∧
    framePreserved s (s.execute (.ADDC t)).1 := by
  cases t <;>
    exact ⟨⟨rfl, rfl, rfl, rfl, rfl, rfl, rfl, rfl, rfl⟩,
           ⟨rfl, rfl, rfl, rfl, rfl, rfl, rfl, rfl, rfl⟩⟩

/-- Recognizes the instructions `Cpu::execute` leaves unimplemented:
`SUB` and `SBC` with any target (every non-ADD/ADDC arm of the match). -/
def unimplemented : Instruction → Bool
  | .SUB _ => true
  | .SBC _ => true
  | _ => false

/-- C6: executing an instruction recognized by decode but not yet
implemented (`SUB`/`SBC` with any target, i.e. every non-ADD/ADDC arm)
leaves the entire state unchanged — every register, every flag, `sp`,
all memory — and returns the current `pc` unmodified. -/
theorem execute_unimplemented_noop (s : Cpu) (i : Instruction)
    (h : unimplemented i = true) : s.execute i = (s, s.pc) := by
  cases i
  case ADD t => simp [unimplemented] at h
  case ADDC t => simp [unimplemented] at h
  case SUB t => rfl
  case SBC t => rfl

/-- C6 witness: `SUB B` on a concrete state returns the state and pc
unchanged. -/
theorem execute_unimplemented_noop_witness :
    sampleCpu.execute (.SUB .B) = (sampleCpu, sampleCpu.pc) :=
  execute_unimplemented_noop sampleCpu (.SUB .B) rfl

/-- The everywhere-undefined decode table, used to exercise the decode
failure path of `Cpu.run`. -/
def decodeNone : Nat → Option Instruction := fun _ => none

/-- A concrete CPU state at the given `pc`, with a bus returning `0xD3`
at every address. -/
def cpuAtPc (pc : Nat) : Cpu :=
  { registers :=
      { a := 0, b := 0, c := 0, d := 0, e := 0, h := 0, l := 0
        f := { zero := false, substraction := false
               half_carry := false, carry := false } }
    pc := pc
    sp := 0
    bus := fun _ => 0xD3 }

/-- C5 counterexample: two decode failures fetched at different
addresses (`pc = 0` and `pc = 5`) produce the same diagnostic — the
panic interpolates only the opcode byte — so the diagnostic does not
identify the address at which the byte was fetched, refuting the claim
as stated. -/
theorem run_diagnostic_omits_address :
    Cpu.run decodeNone (cpuAtPc 0) = Except.error 0xD3 ∧
    Cpu.run decodeNone (cpuAtPc 5) = Except.error 0xD3 ∧
    (cpuAtPc 0).pc ≠ (cpuAtPc 5).pc :=
  ⟨rfl, rfl, by decide⟩

/-- C5 (amended): whenever the byte fetched at the current `pc` has no
decode-table entry, the run step halts with an error rather than
silently falling through or advancing `pc`, and its diagnostic
identifies the offending opcode byte (but not the fetch address). -/
theorem run_decode_failure_halts (from_byte : Nat → Option Instruction)
    (s : Cpu) (h : from_byte (s.bus s.pc) = none) :
    Cpu.run from_byte s = Except.error (s.bus s.pc) := by
  simp [Cpu.run, h]

/-- C5 witness: running with an empty decode table at `pc = 3` halts
with the fetched opcode byte as the diagnostic. -/
theorem run_decode_failure_halts_witness :
    Cpu.run decodeNone (cpuAtPc 3) =
      Except.error ((cpuAtPc 3).bus (cpuAtPc 3).pc) :=
  run_decode_failure_halts decodeNone (cpuAtPc 3) rfl

set_option maxRecDepth 4096 in
/-- C8: packing any four flag booleans into the `f` byte and unpacking
yields the identical booleans, the low nibble of the packed byte is
always `0`, and consequently `write_af` followed by `read_af`
round-trips every 16-bit value whose low nibble is `0`. -/
theorem flags_af_roundtrip :
    (∀ f : FlagsRegister,
      FlagsRegister.ofByte f.toByte = f ∧ f.toByte % 16 = 0) ∧
    (∀ (r : Registers) (v : Nat), v < 65536 → v % 16 = 0 →
      (r.write_af v).read_af = v) := by
  constructor
  · intro f
    cases f with
    | mk z n hc c => revert z n hc c; decide
  · intro r v hv h16
    have hball : ∀ b, b < 256 → b % 16 = 0 →
        (FlagsRegister.ofByte b).toByte = b := by decide
    have hb := hball (v % 256) (Nat.mod_lt _ (by omega)) (by omega)
    simp [Registers.write_af, Registers.read_af, hb]
    omega

/-- C8 witness: `write_af` then `read_af` round-trips `0xAB30` on a
concrete register file. -/
theorem flags_af_roundtrip_witness :
    (sampleCpu.registers.write_af 0xAB30).read_af = 0xAB30 :=
  flags_af_roundtrip.2 sampleCpu.registers 0xAB30 (by decide) (by decide)
